import Mathlib

/-!
Verification development for a minimal chat application:
an Express relay (src/index.js) that forwards a conversation to a
generative-language provider and extracts plain text from the polymorphic
provider response, and a browser client (src/public/script.js) that keeps
the conversation history, talks to the relay, and renders untrusted text to
HTML through a small markdown-subset pipeline.

JavaScript values reachable in the relevant code paths are modelled by the
inductive `Json` below (numbers as integers; the claims never involve
non-integer numbers).  JavaScript `undefined` arises only as the result of a
failed lookup and is modelled by `Option.none`; a stored `null` is
`Json.null`.  Optional chaining `a?.b` short-circuits on nullish values,
which the lookup helpers reproduce.  Thrown exceptions are modelled with
`Except`.
-/

set_option maxRecDepth 10000

/-- A JavaScript/JSON value. -/
inductive Json where
  | null : Json
  | bool : Bool → Json
  | num : Int → Json
  | str : String → Json
  | arr : List Json → Json
  | obj : List (String × Json) → Json

/-- Property lookup under optional chaining: `j?.k`.  Returns `none`
(JS `undefined`) when `j` is nullish or not an object or lacks the key.
Exotic prototype properties of primitives are not modelled. -/
def Json.getF : Json → String → Option Json
  | .obj fs, k => (fs.find? (fun p => p.1 = k)).map (fun p => p.2)
  | _, _ => none

/-- Index lookup under optional chaining: `j?.[i]`. -/
def Json.idx : Json → Nat → Option Json
  | .arr xs, i => xs[i]?
  | _, _ => none

/-- JavaScript truthiness of a value. -/
def truthy : Json → Bool
  | .null => false
  | .bool b => b
  | .num n => n != 0
  | .str s => s != ""
  | .arr _ => true
  | .obj _ => true

/-- Whether a value is a string (`typeof v === "string"`). -/
def Json.isStr : Json → Bool
  | .str _ => true
  | _ => false

/-- One step of an optional chain: look a key up in an intermediate result. -/
def dig (o : Option Json) (k : String) : Option Json :=
  match o with
  | some j => j.getF k
  | none => none

/-- One step of an optional chain: index an intermediate result. -/
def digIdx (o : Option Json) (i : Nat) : Option Json :=
  match o with
  | some j => j.idx i
  | none => none

/-- Collapse a nullish chain result for `??`: JS `null` and `undefined`
are both nullish. -/
def denull : Option Json → Option Json
  | some .null => none
  | o => o

/-- Join a list of strings with a separator (kernel-reducible substitute
for `String.intercalate`). -/
def joinSep (sep : String) : List String → String
  | [] => ""
  | [s] => s
  | s :: rest => s ++ sep ++ joinSep sep rest

/-- JavaScript `String(v)` conversion for an array element as used by
`Array.prototype.join` (nullish elements become the empty string). -/
def jsArrElemStr (fuel : Nat) : Json → String :=
  fun j =>
    match fuel with
    | 0 => ""
    | f + 1 =>
      match j with
      | .null => ""
      | .bool b => if b then "true" else "false"
      | .num n => toString n
      | .str s => s
      | .arr xs => joinSep "," (xs.map (jsArrElemStr f))
      | .obj _ => "[object Object]"

mutual

/-- A structural size used only as recursion fuel. -/
def Json.fuelSize : Json → Nat
  | .null => 1
  | .bool _ => 1
  | .num _ => 1
  | .str _ => 1
  | .arr xs => 1 + jsonSizeL xs
  | .obj fs => 1 + jsonSizeF fs

/-- Size of a list of values (recursion fuel helper). -/
def jsonSizeL : List Json → Nat
  | [] => 0
  | x :: xs => Json.fuelSize x + jsonSizeL xs

/-- Size of a field list (recursion fuel helper). -/
def jsonSizeF : List (String × Json) → Nat
  | [] => 0
  | p :: fs => Json.fuelSize p.2 + jsonSizeF fs

end

/-- Whether a value is JS `null`. -/
def Json.isNull : Json → Bool
  | .null => true
  | _ => false

/-- JavaScript string conversion `String(v)` (via `Error` message building
and `Array.prototype.join`). -/
def jsToString (j : Json) : String :=
  match j with
  | .null => "null"
  | .bool b => if b then "true" else "false"
  | .num n => toString n
  | .str s => s
  | .arr xs => joinSep "," (xs.map (jsArrElemStr (Json.fuelSize (.arr xs))))
  | .obj _ => "[object Object]"

/-- Escape one character for a JSON string literal, as
`JSON.stringify` does. -/
def jsonEscChar (c : Char) : String :=
  if c = '"' then "\\\""
  else if c = '\\' then "\\\\"
  else if c = '\n' then "\\n"
  else if c = '\t' then "\\t"
  else if c = '\r' then "\\r"
  else if c = (Char.ofNat 8) then "\\b"
  else if c = (Char.ofNat 12) then "\\f"
  else if c.toNat < 32 then
    "\\u00" ++ String.mk [Char.ofNat (if c.toNat / 16 < 10 then 48 + c.toNat / 16 else 87 + c.toNat / 16),
                          Char.ofNat (if c.toNat % 16 < 10 then 48 + c.toNat % 16 else 87 + c.toNat % 16)]
  else String.mk [c]

/-- Quote a string as a JSON string literal. -/
def jsonQuote (s : String) : String :=
  "\"" ++ String.join (s.toList.map jsonEscChar) ++ "\""

/-- Repeat a string `n` times (for pretty-printing indentation). -/
def repStr : Nat → String → String
  | 0, _ => ""
  | n + 1, s => s ++ repStr n s

/-- `JSON.stringify(v, null, 2)`: pretty rendering with two-space
indentation; `ind` is the current indentation depth, `fuel` a structural
bound.  An empty object prints as `\x7b\x7d` and an empty array as `[]`,
with no inner newline, exactly as in JavaScript. -/
def stringifyF (fuel : Nat) (ind : Nat) (j : Json) : String :=
  match fuel with
  | 0 => ""
  | f + 1 =>
    match j with
    | .null => "null"
    | .bool b => if b then "true" else "false"
    | .num n => toString n
    | .str s => jsonQuote s
    | .arr [] => "[]"
    | .arr xs =>
        "[\n"
        ++ joinSep ",\n" (xs.map (fun x => repStr (ind + 1) "  " ++ stringifyF f (ind + 1) x))
        ++ "\n" ++ repStr ind "  " ++ "]"
    | .obj [] => "\x7b\x7d"
    | .obj fs =>
        "\x7b\n"
        ++ joinSep ",\n" (fs.map (fun p =>
             repStr (ind + 1) "  " ++ jsonQuote p.1 ++ ": " ++ stringifyF f (ind + 1) p.2))
        ++ "\n" ++ repStr ind "  " ++ "\x7d"

/-- `JSON.stringify(v, null, 2)`. -/
def stringify (j : Json) : String := stringifyF (Json.fuelSize j) 0 j

/-! ## Relay response extraction (src/index.js, `extractText`)

```js
const text =
  resp?.response?.candidates?.[0]?.content?.parts?.[0]?.text ??
  resp?.candidates?.[0]?.content?.parts?.[0]?.text ??
  resp?.response?.candidates?.[0]?.content?.parts
    ?.map((p) => p.text).filter(Boolean).join("\n") ??
  resp?.candidates?.[0]?.content?.parts
    ?.map((p) => p.text).filter(Boolean).join("\n");
return text ?? JSON.stringify(resp, null, 2);
```
wrapped in `try/catch`, the catch returning `JSON.stringify(resp, null, 2)`.
-/

/-- The chain `root?.candidates?.[0]?.content?.parts` (with `root` already
an optional intermediate value). -/
def partsOf (root : Option Json) : Option Json :=
  dig (digIdx (dig root "candidates") 0) "content" |>.bind (fun c => c.getF "parts")

/-- Branch 1/2 of the extractor: `...parts?.[0]?.text`, collapsed to its
`??` contribution (nullish ↦ `none`). -/
def firstTextOf (root : Option Json) : Option Json :=
  denull (dig (digIdx (partsOf root) 0) "text")

/-- Branches 3/4 of the extractor:
`...parts?.map((p) => p.text).filter(Boolean).join("\n")`.
`Except.error` models a thrown `TypeError` (`p.text` with `p` null, or
`.map` called on a non-array); `Option.none` models the optional chain
short-circuiting on a nullish `parts`. -/
def joinTextOf (root : Option Json) : Except Unit (Option Json)  :=
  match partsOf root with
  | none => .ok none
  | some .null => .ok none
  | some (.arr xs) =>
      -- p.text: plain (non-optional) access throws on a null element
      if xs.any Json.isNull then .error ()
      else
        let mapped := xs.map (fun p => p.getF "text")
        let kept := mapped.filterMap (fun o =>
          match o with
          | some v => if truthy v then some v else none
          | none => none)
        .ok (some (.str (joinSep "\n" (kept.map jsToString))))
  | some _ => .error ()  -- .map is not a function on a non-array

/-- The value of the whole `??` chain (left-to-right, short-circuiting on
the first non-nullish value; `Except.error` = an exception escaped to the
`catch`). -/
def chainRes (resp : Json) : Except Unit (Option Json) :=
  match firstTextOf (dig (some resp) "response") with
  | some v => .ok (some v)
  | none =>
    match firstTextOf (some resp) with
    | some v => .ok (some v)
    | none =>
      match joinTextOf (dig (some resp) "response") with
      | .error e => .error e
      | .ok (some v) => .ok (some v)
      | .ok none => joinTextOf (some resp)

/-- `extractText` from src/index.js: the `??` chain, with both the final
`?? JSON.stringify(resp, null, 2)` fallback and the `catch` handler
returning `JSON.stringify(resp, null, 2)`. -/
def extractText (resp : Json) : Json :=
  match chainRes resp with
  | .ok (some v) => v
  | .ok none => .str (stringify resp)
  | .error _ => .str (stringify resp)

/-! ## Relay request handling (src/index.js, `app.post("/api/chat")`)

```js
const { messages } = req.body || {};
if (!Array.isArray(messages)) throw new Error("messages must be an array");
const client = getClient();
if (!client) return res.status(503).json({ error: "Missing GEMINI_API_KEY (or API_KEY) in environment." });
const contents = messages.map((m) => ({ role: m.role, parts: [{ text: m.content }] }));
... resp = await <provider call> ...
res.json({ result: extractText(resp) });
} catch (err) { res.status(500).json({ error: err.message }); }
```

The dual client-constructor / call-style probing is abstracted into a single
provider outcome parameter (`Except String Json`: a rejected provider call
carries an error message, a fulfilled one the opaque provider response).
The environment is abstracted to the computed `API_KEY` value
(`none` = neither variable set). -/

/-- Map one history message to the provider content shape
(`{ role: m.role, parts: [{ text: m.content }] }`).  Plain (non-optional)
property access on a null element throws a TypeError, modelled as
`Except.error` with a marker message (the exact engine message is not
modelled; no theorem depends on it). -/
def toContent (m : Json) : Except String Json :=
  match m with
  | .null => .error "TypeError: cannot read properties of null"
  | _ => .ok (.obj [("role", (m.getF "role").getD .null),
                    ("parts", .arr [.obj [("text", (m.getF "content").getD .null)]])])

/-- `messages.map(toContent)`, propagating a thrown TypeError. -/
def contentsOf : List Json → Except String (List Json)
  | [] => .ok []
  | m :: ms =>
    match toContent m with
    | .error e => .error e
    | .ok c =>
      match contentsOf ms with
      | .error e => .error e
      | .ok cs => .ok (c :: cs)

/-- `API_KEY` is falsy when unset or empty (`!API_KEY`). -/
def keyFalsy : Option String → Bool
  | none => true
  | some s => s == ""

/-- The `req.body || {}` default. -/
def effBody (b : Json) : Json := if truthy b then b else .obj []

/-- The POST /api/chat handler: given the configured credential, the parsed
request body and the provider-call outcome, produce the HTTP status and the
JSON response body.  Being a total function, it answers every request (the
process never terminates on a bad request). -/
def chatHandler (apiKey : Option String) (reqBody : Json) (provider : Except String Json) :
    Nat × Json :=
  match (effBody reqBody).getF "messages" with
  | some (.arr ms) =>
      if keyFalsy apiKey then
        (503, .obj [("error", .str "Missing GEMINI_API_KEY (or API_KEY) in environment.")])
      else
        match contentsOf ms with
        | .error e => (500, .obj [("error", .str e)])
        | .ok _ =>
          match provider with
          | .error e => (500, .obj [("error", .str e)])
          | .ok resp => (200, .obj [("result", extractText resp)])
  | _ => (500, .obj [("error", .str "messages must be an array")])

/-! ## Client transport (src/public/script.js, `sendMessage` and the form
submit handler)

```js
async function sendMessage(userText) {
  history.push({ role: "user", content: userText });
  const thinkingEl = appendMessage("model", "Thinking...", { placeholder: true });
  try {
    const resp = await fetch("/api/chat", { ... body: JSON.stringify({ messages: history }) });
    let data;
    try { data = await resp.json(); } catch { throw new Error("Invalid JSON response"); }
    if (!resp.ok) throw new Error(data?.error || `HTTP $\x7bresp.status\x7d`);
    const aiText = data && typeof data.result === "string" && data.result.trim()
      ? data.result.trim() : null;
    if (!aiText) { thinkingEl.textContent = "Sorry, no response received."; ... return; }
    thinkingEl.textContent = aiText;
    history.push({ role: "model", content: aiText });
  } catch (err) {
    console.error("Chat request failed:", err);
    thinkingEl.textContent = "Failed to get response from server.";
    ...
  }
}
```

The DOM placeholder bubble is abstracted to the final text it displays;
the fetch is abstracted to its outcome. -/

/-- One history entry (`{ role, content }`). -/
structure Message where
  role : String
  content : String
deriving DecidableEq

/-- JS `String.prototype.trim` on a character list. -/
def trimChars (cs : List Char) : List Char :=
  ((cs.dropWhile Char.isWhitespace).reverse.dropWhile Char.isWhitespace).reverse

/-- JS `String.prototype.trim` (kernel-reducible model). -/
def trimS (s : String) : String := String.mk (trimChars s.toList)

/-- The outcome of the `fetch("/api/chat")` call: a network-level rejection,
or a response with its `ok` flag, status, and body (`none` = the body was
not valid JSON, so `resp.json()` rejects). -/
inductive FetchOutcome where
  | netErr : FetchOutcome
  | reply : Bool → Nat → Option Json → FetchOutcome

/-- What one `sendMessage` call leaves behind: the new history, the text
finally shown in the placeholder bubble, and the message of the `Error` the
handler itself constructed and threw, if any (it reaches only
`console.error`, never the bubble). -/
structure SendResult where
  hist : List Message
  display : String
  thrownMsg : Option String
deriving DecidableEq

/-- ``data?.error || `HTTP $\x7bresp.status\x7d` ``: the truthy `error` field,
else the generic message. -/
def errText (data : Json) (status : Nat) : String :=
  match dig (some data) "error" with
  | some v => if truthy v then jsToString v else "HTTP " ++ toString status
  | none => "HTTP " ++ toString status

/-- `data && typeof data.result === "string" && data.result.trim() ? data.result.trim() : null`. -/
def aiTextOf (data : Json) : Option String :=
  if truthy data then
    match data.getF "result" with
    | some (.str s) => if trimS s != "" then some (trimS s) else none
    | _ => none
  else none

/-- `sendMessage(userText)` from src/public/script.js, as a function of the
history it starts from and the fetch outcome. -/
def sendMessage (h : List Message) (userText : String) (o : FetchOutcome) : SendResult :=
  let h1 := h ++ [⟨"user", userText⟩]
  match o with
  | .netErr => ⟨h1, "Failed to get response from server.", none⟩
  | .reply _ _ none =>
      -- resp.json() rejected: throw new Error("Invalid JSON response") → outer catch
      ⟨h1, "Failed to get response from server.", some "Invalid JSON response"⟩
  | .reply false status (some data) =>
      -- !resp.ok: throw new Error(data?.error || `HTTP ...`) → outer catch
      ⟨h1, "Failed to get response from server.", some (errText data status)⟩
  | .reply true _ (some data) =>
      match aiTextOf data with
      | none => ⟨h1, "Sorry, no response received.", none⟩
      | some t => ⟨h1 ++ [⟨"model", t⟩], t, none⟩

/-- The form submit handler:
```js
const userText = input.value.trim();
if (!userText) return;
appendMessage("user", userText);
...
await sendMessage(userText);
```
Returns the new history, whether a network call was made, and the displayed
reply text (`none` when the submission was ignored). -/
def submitHandler (h : List Message) (value : String) (o : FetchOutcome) :
    List Message × Bool × Option String :=
  if trimS value == "" then (h, false, none)
  else
    let r := sendMessage h (trimS value) o
    (r.hist, true, some r.display)

/-! ## Renderer (src/public/script.js, `sanitize` and `renderMarkdown`)

The pipeline is modelled on lists of *tagged characters*: each character
carries a provenance flag `fromInput` that is `true` exactly when the
character comes from the raw untrusted input string.  Every string a
transform emits itself (tags, entities) is tagged `false`.  The matching
logic looks only at the character component, so erasing the flags gives the
string behaviour of the source; the flags let injection safety be stated as
"no character of the output that originated from the raw input is an
unescaped `<`, `>` or `&`".

Regex semantics are translated operationally.  Two conscious modelling
choices, both irrelevant to every theorem below: the `\s` inside the
line-anchored heading/list patterns is modelled as intra-line whitespace
(in JavaScript `\s` also matches the newline itself, letting a degenerate
match cross a line boundary), and `\s`/`trim` use `Char.isWhitespace`
rather than the full Unicode class. -/

/-- A character with its provenance (`fromInput = true` ⟺ it came from the
raw untrusted input). -/
structure Tok where
  ch : Char
  fromInput : Bool
deriving DecidableEq

/-- Renderer-emitted text (tags, entities): every character tagged as not
from input. -/
def gen (s : String) : List Tok := s.toList.map (fun c => ⟨c, false⟩)

/-- The raw input string, every character tagged as from input. -/
def inputToks (s : String) : List Tok := s.toList.map (fun c => ⟨c, true⟩)

/-- Erase provenance: the actual string the browser receives. -/
def untag (ts : List Tok) : String := String.mk (ts.map Tok.ch)

/-- The backtick character. -/
def tick : Char := Char.ofNat 96

/-- `sanitize`: `div.textContent = str; return div.innerHTML` escapes each
HTML-significant character to its entity (quotes are *not* escaped by
innerHTML serialization of a text node). -/
def escTok (t : Tok) : List Tok :=
  if t.ch = '&' then gen "&amp;"
  else if t.ch = '<' then gen "&lt;"
  else if t.ch = '>' then gen "&gt;"
  else [t]

/-- The sanitize stage applied to a whole token list. -/
def sanitizeT (ts : List Tok) : List Tok := ts.flatMap escTok

/-- Split at the first occurrence of three consecutive backticks:
`some (before, after)`, or `none` when there is no such occurrence. -/
def splitTicks3 : List Tok → Option (List Tok × List Tok)
  | a :: b :: c :: rest =>
    if a.ch = tick ∧ b.ch = tick ∧ c.ch = tick then some ([], rest)
    else
      match splitTicks3 (b :: c :: rest) with
      | some (p, q) => some (a :: p, q)
      | none => none
  | _ => none

/-- `code.replace(/</g, "&lt;")` inside a fenced block (defense in depth). -/
def escLt (ts : List Tok) : List Tok :=
  ts.flatMap (fun t => if t.ch = '<' then gen "&lt;" else [t])

/-- Code fences: repeatedly pair the leftmost two ``` delimiters (the lazy
`[\s\S]*?` yields exactly this leftmost non-overlapping pairing); an
unpaired trailing delimiter stays literal. -/
def fenceGo : Nat → List Tok → List Tok
  | 0, ts => ts
  | f + 1, ts =>
    match splitTicks3 ts with
    | none => ts
    | some (pre, post) =>
      match splitTicks3 post with
      | none => ts
      | some (content, rest) =>
        pre ++ gen "<pre><code>" ++ escLt content ++ gen "</code></pre>" ++ fenceGo f rest

/-- The fenced-code-block stage. -/
def fenceStage (ts : List Tok) : List Tok := fenceGo ts.length ts

/-- Split a token list on every occurrence of a character (the character
itself is dropped; `n` delimiters yield `n + 1` pieces). -/
def splitOnCh (c : Char) : List Tok → List (List Tok)
  | [] => [[]]
  | t :: rest =>
    match splitOnCh c rest with
    | [] => [[]]
    | p :: ps => if t.ch = c then [] :: p :: ps else (t :: p) :: ps

/-- Inline code: pieces between single backticks; a pair of delimiters with
a non-empty piece between them becomes a `<code>` element
(`/`+"`"+`([^`+"`"+`]+)`+"`"+`/g`), an unmatched delimiter stays a literal
backtick (which always originated from the input: no emitted tag contains
one). -/
def codeJoin : List (List Tok) → List Tok
  | [] => []
  | [p] => p
  | p :: q :: rest =>
    if !q.isEmpty && !rest.isEmpty then
      p ++ gen "<code>" ++ q ++ gen "</code>" ++ codeJoin rest
    else p ++ [⟨tick, true⟩] ++ codeJoin (q :: rest)

/-- The inline-code stage. -/
def codeStage (ts : List Tok) : List Tok := codeJoin (splitOnCh tick ts)

/-- A newline token reinserted when joining lines (no emitted tag contains
a newline, so every newline in mid-pipeline text originated from the
input). -/
def nlTok : Tok := ⟨'\n', true⟩

/-- Split into lines at newline characters. -/
def splitLinesT (ts : List Tok) : List (List Tok) := splitOnCh '\n' ts

/-- Rejoin lines with newlines between them. -/
def joinNl : List (List Tok) → List Tok
  | [] => []
  | [l] => l
  | l :: ls => l ++ nlTok :: joinNl ls

/-- Intra-line `\s`. -/
def lineWs (c : Char) : Bool := c.isWhitespace && c != '\n'

/-- One line under the heading replace `/^#..#\s+(.*)$/` for `n` hashes
(`n` ∈ 1..3): the hashes must be followed by at least one whitespace, the
greedy `\s+` then eats the run and `(.*)` captures the remainder. -/
def headLine (n : Nat) (l : List Tok) : List Tok :=
  let pre := l.take n
  let rest := l.drop n
  if pre.length = n && pre.all (fun t => t.ch == '#')
     && (match rest with | t :: _ => lineWs t.ch | [] => false) then
    gen ("<h" ++ toString n ++ ">") ++ rest.dropWhile (fun t => lineWs t.ch)
      ++ gen ("</h" ++ toString n ++ ">")
  else l

/-- One linewise heading pass. -/
def headStage (n : Nat) (ts : List Tok) : List Tok :=
  joinNl ((splitLinesT ts).map (headLine n))

/-- The heading stage: `###`, then `##`, then `#`, in source order. -/
def headingsStage (ts : List Tok) : List Tok :=
  headStage 1 (headStage 2 (headStage 3 ts))

/-- One pass of a double-delimiter emphasis replace such as
`/\*\*([^*]+)\*\*/g`: at a double delimiter, the greedy non-delimiter run
must be non-empty and be followed by the double delimiter again; on failure
the scan advances one character, exactly as the regex engine does. -/
def emphDouble (c : Char) (tagO tagC : String) : Nat → List Tok → List Tok
  | 0, ts => ts
  | _ + 1, [] => []
  | f + 1, a :: rest =>
    if a.ch = c then
      match rest with
      | [] => [a]
      | b :: rest2 =>
        if b.ch = c then
          let content := rest2.takeWhile (fun t => t.ch != c)
          let rest3 := rest2.dropWhile (fun t => t.ch != c)
          match content, rest3 with
          | _ :: _, x :: y :: rest4 =>
            if x.ch = c ∧ y.ch = c then
              gen tagO ++ content ++ gen tagC ++ emphDouble c tagO tagC f rest4
            else a :: emphDouble c tagO tagC f rest
          | _, _ => a :: emphDouble c tagO tagC f rest
        else a :: emphDouble c tagO tagC f rest
    else a :: emphDouble c tagO tagC f rest

/-- One pass of a single-delimiter emphasis replace such as
`/\*([^*]+)\*/g`. -/
def emphSingle (c : Char) (tagO tagC : String) : Nat → List Tok → List Tok
  | 0, ts => ts
  | _ + 1, [] => []
  | f + 1, a :: rest =>
    if a.ch = c then
      let content := rest.takeWhile (fun t => t.ch != c)
      let rest3 := rest.dropWhile (fun t => t.ch != c)
      match content, rest3 with
      | _ :: _, x :: rest4 =>
        if x.ch = c then gen tagO ++ content ++ gen tagC ++ emphSingle c tagO tagC f rest4
        else a :: emphSingle c tagO tagC f rest
      | _, _ => a :: emphSingle c tagO tagC f rest
    else a :: emphSingle c tagO tagC f rest

/-- The bold/italics stage: `**`, `*`, `__`, `_`, in source order. -/
def emphStage (ts : List Tok) : List Tok :=
  let s1 := emphDouble '*' "<strong>" "</strong>" (ts.length + 1) ts
  let s2 := emphSingle '*' "<em>" "</em>" (s1.length + 1) s1
  let s3 := emphDouble '_' "<strong>" "</strong>" (s2.length + 1) s2
  emphSingle '_' "<em>" "</em>" (s3.length + 1) s3

/-- Consume `http://` or `https://` (`https?:\/\/`); returns the consumed
scheme tokens and the remainder. -/
def chompScheme : List Tok → Option (List Tok × List Tok)
  | h :: t1 :: t2 :: p :: rest =>
    if h.ch = 'h' ∧ t1.ch = 't' ∧ t2.ch = 't' ∧ p.ch = 'p' then
      match rest with
      | s :: c1 :: s1 :: s2 :: rest2 =>
        if s.ch = 's' then
          if c1.ch = ':' ∧ s1.ch = '/' ∧ s2.ch = '/' then
            some ([h, t1, t2, p, s, c1, s1, s2], rest2)
          else none
        else if s.ch = ':' ∧ c1.ch = '/' ∧ s1.ch = '/' then
          some ([h, t1, t2, p, s, c1, s1], s2 :: rest2)
        else none
      | _ => none
    else none
  | _ => none

/-- A character allowed in the URL part: `[^)\s]`. -/
def urlOk (t : Tok) : Bool := t.ch != ')' && !t.ch.isWhitespace

/-- Try the link pattern `\[([^\]]+)\]\((https?:\/\/[^)\s]+)\)` at the head
of the list; on success, the replacement
`<a href="$2" target="_blank" rel="noopener noreferrer">$1</a>` and the
remainder. -/
def tryLink : List Tok → Option (List Tok × List Tok)
  | lb :: rest =>
    if lb.ch = '[' then
      let txt := rest.takeWhile (fun t => t.ch != ']')
      let r1 := rest.dropWhile (fun t => t.ch != ']')
      match txt, r1 with
      | _ :: _, _rb :: lp :: r2 =>
        if lp.ch = '(' then
          match chompScheme r2 with
          | some (scheme, r3) =>
            let url := r3.takeWhile urlOk
            let r4 := r3.dropWhile urlOk
            match url, r4 with
            | _ :: _, rp :: r5 =>
              if rp.ch = ')' then
                some (gen "<a href=\"" ++ scheme ++ url
                      ++ gen "\" target=\"_blank\" rel=\"noopener noreferrer\">"
                      ++ txt ++ gen "</a>", r5)
              else none
            | _, _ => none
          | none => none
        else none
      | _, _ => none
    else none
  | [] => none

/-- Scan for link matches, advancing one character on failure. -/
def linkGo : Nat → List Tok → List Tok
  | 0, ts => ts
  | _ + 1, [] => []
  | f + 1, a :: rest =>
    match tryLink (a :: rest) with
    | some (rep, rem) => rep ++ linkGo f rem
    | none => a :: linkGo f rest

/-- The link stage. -/
def linkStage (ts : List Tok) : List Tok := linkGo (ts.length + 1) ts

/-- An unordered-list marker character (`[-*+]`). -/
def ulHead (c : Char) : Bool := c == '-' || c == '*' || c == '+'

/-- JS `trim` on a token list. -/
def trimT (ts : List Tok) : List Tok :=
  ((ts.dropWhile (fun t => t.ch.isWhitespace)).reverse.dropWhile
      (fun t => t.ch.isWhitespace)).reverse

/-- Does a line match one iteration `[-*+]\s.+` of the unordered-list
pattern?  (The lazy `+?` with nothing after it always matches exactly one
iteration, i.e. a single line.) -/
def ulMatch : List Tok → Bool
  | m :: w :: r => ulHead m.ch && lineWs w.ch && !r.isEmpty
  | _ => false

/-- The `<li>` content of a matched list line:
`block.trim()`, then `replace(/^[-*+]\s+/, "")`, then `.trim()`. -/
def ulItem (l : List Tok) : List Tok :=
  match trimT l with
  | _m :: r => trimT (r.dropWhile (fun t => lineWs t.ch))
  | [] => []

/-- The single-item `<ul>` block a matched line becomes. -/
def mkUl (l : List Tok) : List Tok := gen "<ul><li>" ++ ulItem l ++ gen "</li></ul>"

/-- Rejoin lines after a list pass: the replacement of a matched line swallows
the trailing newline (it was part of the regex match); unmatched lines keep
theirs. -/
def listJoin (f : List Tok → Bool) (mk : List Tok → List Tok) : List (List Tok) → List Tok
  | [] => []
  | [l] => if f l then mk l else l
  | l :: ls => (if f l then mk l else l ++ [nlTok]) ++ listJoin f mk ls

/-- The unordered-list stage. -/
def ulStage (ts : List Tok) : List Tok := listJoin ulMatch mkUl (splitLinesT ts)

/-- Does a line match one iteration `\d+\.\s.+` of the ordered-list
pattern? -/
def olMatch (l : List Tok) : Bool :=
  let r := l.dropWhile (fun t => t.ch.isDigit)
  !(l.takeWhile (fun t => t.ch.isDigit)).isEmpty &&
    (match r with
     | d :: w :: r2 => d.ch == '.' && lineWs w.ch && !r2.isEmpty
     | _ => false)

/-- The `<li>` content of a matched ordered-list line
(strip `/^\d+\.\s+/`). -/
def olItem (l : List Tok) : List Tok :=
  match (trimT l).dropWhile (fun t => t.ch.isDigit) with
  | _d :: r2 => trimT (r2.dropWhile (fun t => lineWs t.ch))
  | [] => []

/-- The single-item `<ol>` block a matched line becomes. -/
def mkOl (l : List Tok) : List Tok := gen "<ol><li>" ++ olItem l ++ gen "</li></ol>"

/-- The ordered-list stage. -/
def olStage (ts : List Tok) : List Tok := listJoin olMatch mkOl (splitLinesT ts)

/-- `replace(/\n\x7b2,\x7d/g, "</p><p>")`: a maximal run of two or more
newlines becomes a paragraph break. -/
def paraGo : Nat → List Tok → List Tok
  | 0, ts => ts
  | _ + 1, [] => []
  | f + 1, a :: rest =>
    if a.ch = '\n' then
      match rest with
      | [] => [a]
      | b :: rest2 =>
        if b.ch = '\n' then
          gen "</p><p>" ++ paraGo f (rest2.dropWhile (fun t => t.ch == '\n'))
        else a :: paraGo f rest
    else a :: paraGo f rest

/-- The paragraph-break pass. -/
def paraBreak (ts : List Tok) : List Tok := paraGo (ts.length + 1) ts

/-- `replace(/^(.+?)$/gm, ...)`: wrap each non-empty line not starting with
`<` in a `<span>`. -/
def spanLine (l : List Tok) : List Tok :=
  match l with
  | [] => []
  | t :: _ => if t.ch = '<' then l else gen "<span>" ++ l ++ gen "</span>"

/-- The span-wrapping pass. -/
def spanStage (ts : List Tok) : List Tok := joinNl ((splitLinesT ts).map spanLine)

/-- Everything `renderMarkdown` does after the initial sanitize, in source
order, including the final paragraph wrap. -/
def postSanitize (ts : List Tok) : List Tok :=
  gen "<p>" ++
    spanStage (paraBreak (olStage (ulStage (linkStage (emphStage
      (headingsStage (codeStage (fenceStage ts)))))))) ++ gen "</p>"

/-- `renderMarkdown` on tagged characters: sanitize first, then the
transform chain.  (The `isUser` option of the source changes no behaviour
and is omitted.) -/
def renderToks (raw : String) : List Tok := postSanitize (sanitizeT (inputToks raw))

/-- `renderMarkdown` from src/public/script.js: the HTML string produced
for a raw untrusted input string. -/
def renderMarkdown (raw : String) : String := untag (renderToks raw)

/-! ## Auxiliary definitions used by the statements below -/

/-- Is `pat` a prefix of `s`? (character lists) -/
def startsL : List Char → List Char → Bool
  | [], _ => true
  | _ :: _, [] => false
  | p :: ps, c :: cs => p == c && startsL ps cs

/-- Does `pat` occur as a contiguous substring of `s`? -/
def hasSub (pat : List Char) : List Char → Bool
  | [] => startsL pat []
  | c :: cs => startsL pat (c :: cs) || hasSub pat cs

/-- Number of (possibly overlapping) occurrences of `pat` in `s`. -/
def countSub (pat : List Char) : List Char → Nat
  | [] => if startsL pat [] then 1 else 0
  | c :: cs => (if startsL pat (c :: cs) then 1 else 0) + countSub pat cs

/-- Substring occurrence on strings. -/
def strHas (pat s : String) : Bool := hasSub pat.toList s.toList

/-- Substring occurrence count on strings. -/
def strCount (pat s : String) : Nat := countSub pat.toList s.toList

/-- The model-side append a `sendMessage` call performs beyond the
unconditional user append: one `model` message exactly when the fetch
succeeded (`ok`, JSON body) with a result that is a string with non-empty
trim; nothing otherwise. -/
def modelPart : FetchOutcome → List Message
  | .reply true _ (some data) =>
    match aiTextOf data with
    | some t => [⟨"model", t⟩]
    | none => []
  | _ => []

/-- The §8 example shape `{candidates:[{content:{parts:[{text:"hi"}]}}]}`. -/
def respShape1 : Json :=
  .obj [("candidates", .arr [.obj [("content", .obj [("parts",
    .arr [.obj [("text", .str "hi")]])])]])]

/-- The §8 example shape with `response` wrapper and two text parts. -/
def respShape2 : Json :=
  .obj [("response", .obj [("candidates", .arr [.obj [("content", .obj [("parts",
    .arr [.obj [("text", .str "a")], .obj [("text", .str "b")]])])]])])]

/-- A provider response whose first part has a non-string `text` field. -/
def respNum42 : Json :=
  .obj [("candidates", .arr [.obj [("content", .obj [("parts",
    .arr [.obj [("text", .num 42)]])])]])]

/-- A provider response with an empty `parts` array (no wrapper). -/
def respEmptyParts : Json :=
  .obj [("candidates", .arr [.obj [("content", .obj [("parts", .arr [])])]])]

/-- A provider response with an empty `parts` array under the `response`
wrapper. -/
def respEmptyPartsW : Json :=
  .obj [("response", .obj [("candidates", .arr [.obj [("content", .obj [("parts",
    .arr [])])]])])]

/-- The relay body of a 503 configuration error. -/
def errBody503 : Json :=
  .obj [("error", .str "Missing GEMINI_API_KEY (or API_KEY) in environment.")]

/-- A successful fetch outcome carrying `{result: "ok"}`. -/
def okFetch : FetchOutcome := .reply true 200 (some (.obj [("result", .str "ok")]))

/-- `Array.isArray` on the result of a field lookup. -/
def isArrOpt : Option Json → Bool
  | some (.arr _) => true
  | _ => false

/-! ## Helper lemmas: membership through the list-processing primitives -/

theorem memTakeWhile {α : Type} {p : α → Bool} : ∀ {ts : List α} {t : α}, t ∈ ts.takeWhile p → t ∈ ts := by
  intro ts
  induction ts with
  | nil => intro t h; simp at h
  | cons a rest ih =>
    intro t h
    rw [List.takeWhile_cons] at h
    by_cases hp : p a = true
    · simp only [hp, if_true, List.mem_cons] at h
      rcases h with h | h
      · simp [h]
      · exact List.mem_cons_of_mem _ (ih h)
    · simp only [hp, if_false] at h
      simp at h

theorem memDropWhile {α : Type} {p : α → Bool} : ∀ {ts : List α} {t : α}, t ∈ ts.dropWhile p → t ∈ ts := by
  intro ts
  induction ts with
  | nil => intro t h; simp at h
  | cons a rest ih =>
    intro t h
    rw [List.dropWhile_cons] at h
    by_cases hp : p a = true
    · simp only [hp, if_true] at h
      exact List.mem_cons_of_mem _ (ih h)
    · simp only [hp, if_false] at h
      exact h

theorem memTrimT {ts : List Tok} {t : Tok} (h : t ∈ trimT ts) : t ∈ ts := by
  unfold trimT at h
  rw [List.mem_reverse] at h
  have h1 := memDropWhile h
  rw [List.mem_reverse] at h1
  exact memDropWhile h1

theorem memSplitTicks3 : ∀ {ts pre post : List Tok}, splitTicks3 ts = some (pre, post) →
    (∀ t ∈ pre, t ∈ ts) ∧ (∀ t ∈ post, t ∈ ts) := by
  intro ts
  induction ts using splitTicks3.induct with
  | case1 a b c rest h =>
    intro pre post heq
    unfold splitTicks3 at heq
    simp only [h, if_true] at heq
    cases heq
    constructor
    · intro t ht; simp at ht
    · intro t ht; simp [ht]
  | case2 a b c rest h p q hsp ih =>
    intro pre post heq
    unfold splitTicks3 at heq
    rw [if_neg h, hsp] at heq
    cases heq
    obtain ⟨hp, hq⟩ := ih hsp
    constructor
    · intro t ht
      rcases List.mem_cons.mp ht with h1 | h1
      · simp [h1]
      · exact List.mem_cons_of_mem _ (hp t h1)
    · intro t ht
      exact List.mem_cons_of_mem _ (hq t ht)
  | case3 a b c rest h hsp ih =>
    intro pre post heq
    unfold splitTicks3 at heq
    rw [if_neg h, hsp] at heq
    cases heq
  | case4 ts hshort =>
    intro pre post heq
    unfold splitTicks3 at heq
    match ts, heq with
    | [], heq => cases heq
    | [a], heq => cases heq
    | [a, b], heq => cases heq
    | a :: b :: c :: rest, heq => exact absurd rfl (hshort a b c rest)

theorem memSplitOnCh {c : Char} : ∀ {ts : List Tok} {p : List Tok} {t : Tok},
    p ∈ splitOnCh c ts → t ∈ p → t ∈ ts := by
  intro ts
  induction ts with
  | nil =>
    intro p t hp ht
    unfold splitOnCh at hp
    simp at hp
    subst hp
    simp at ht
  | cons a rest ih =>
    intro p t hp ht
    unfold splitOnCh at hp
    cases hsp : splitOnCh c rest with
    | nil => rw [hsp] at hp; simp at hp; subst hp; simp at ht
    | cons q ps =>
      rw [hsp] at hp
      by_cases ha : a.ch = c
      · simp only [ha, if_true, List.mem_cons] at hp
        have hq : q ∈ splitOnCh c rest := by rw [hsp]; exact List.mem_cons_self q ps
        rcases hp with h1 | h1 | h1
        · rw [h1] at ht; simp at ht
        · exact List.mem_cons_of_mem _ (ih hq (h1 ▸ ht))
        · exact List.mem_cons_of_mem _ (ih (by rw [hsp]; exact List.mem_cons_of_mem _ h1) ht)
      · simp only [ha, if_false, List.mem_cons] at hp
        have hq : q ∈ splitOnCh c rest := by rw [hsp]; exact List.mem_cons_self q ps
        rcases hp with h1 | h1
        · rw [h1] at ht
          rcases List.mem_cons.mp ht with h2 | h2
          · simp [h2]
          · exact List.mem_cons_of_mem _ (ih hq h2)
        · exact List.mem_cons_of_mem _ (ih (by rw [hsp]; exact List.mem_cons_of_mem _ h1) ht)

/-! ## Injection safety: the raw-character invariant -/

/-- A token is acceptable: if it originated from the raw input it is not an
HTML-significant character. -/
def rawOk (t : Tok) : Prop :=
  t.fromInput = true → t.ch ≠ '<' ∧ t.ch ≠ '>' ∧ t.ch ≠ '&'

/-- Every token of the list is acceptable: any `<`, `>` or `&` in the text
was introduced by the renderer, never copied from the raw input. -/
def RawSafe (ts : List Tok) : Prop := ∀ t ∈ ts, rawOk t

theorem rawSafe_append {a b : List Tok} (ha : RawSafe a) (hb : RawSafe b) :
    RawSafe (a ++ b) := by
  intro t ht
  rcases List.mem_append.mp ht with h | h
  · exact ha t h
  · exact hb t h

theorem rawSafe_append_iff {a b : List Tok} : RawSafe (a ++ b) ↔ RawSafe a ∧ RawSafe b := by
  constructor
  · intro h
    exact ⟨fun t ht => h t (List.mem_append.mpr (Or.inl ht)),
           fun t ht => h t (List.mem_append.mpr (Or.inr ht))⟩
  · intro ⟨ha, hb⟩
    exact rawSafe_append ha hb

theorem rawSafe_gen (s : String) : RawSafe (gen s) := by
  intro t ht
  unfold gen at ht
  rcases List.mem_map.mp ht with ⟨c, _, hc⟩
  intro hraw
  rw [← hc] at hraw
  cases hraw

theorem rawSafe_of_sub {a b : List Tok} (hsub : ∀ t ∈ b, t ∈ a) (ha : RawSafe a) :
    RawSafe b := fun t ht => ha t (hsub t ht)

theorem rawSafe_nil : RawSafe [] := by
  intro t ht
  simp at ht

theorem rawSafe_cons {t : Tok} {ts : List Tok} (h1 : rawOk t) (h2 : RawSafe ts) :
    RawSafe (t :: ts) := by
  intro u hu
  rcases List.mem_cons.mp hu with h | h
  · rw [h]; exact h1
  · exact h2 u h

theorem rawOk_tick (b : Bool) : rawOk ⟨tick, b⟩ := by
  intro _
  show tick ≠ '<' ∧ tick ≠ '>' ∧ tick ≠ '&'
  decide

theorem rawOk_nl : rawOk nlTok := by
  intro _
  show nlTok.ch ≠ '<' ∧ nlTok.ch ≠ '>' ∧ nlTok.ch ≠ '&'
  decide

/-- The sanitize stage output: no angle bracket at all, and every ampersand
was written by the escaper itself (as the start of an entity). -/
theorem sanitize_clean : ∀ (ts : List Tok), ∀ t ∈ sanitizeT ts,
    t.ch ≠ '<' ∧ t.ch ≠ '>' ∧ (t.ch = '&' → t.fromInput = false) := by
  intro ts t ht
  unfold sanitizeT at ht
  rcases List.mem_flatMap.mp ht with ⟨a, _, hta⟩
  unfold escTok at hta
  by_cases h1 : a.ch = '&'
  · rw [if_pos h1] at hta
    fin_cases hta <;> refine ⟨by decide, by decide, fun _ => rfl⟩
  · rw [if_neg h1] at hta
    by_cases h2 : a.ch = '<'
    · rw [if_pos h2] at hta
      fin_cases hta <;> refine ⟨by decide, by decide, fun _ => rfl⟩
    · rw [if_neg h2] at hta
      by_cases h3 : a.ch = '>'
      · rw [if_pos h3] at hta
        fin_cases hta <;> refine ⟨by decide, by decide, fun _ => rfl⟩
      · rw [if_neg h3] at hta
        rcases List.mem_singleton.mp hta with rfl
        exact ⟨h2, h3, fun hc => absurd hc h1⟩

/-- Sanitized text satisfies the raw-character invariant outright. -/
theorem rawSafe_sanitize (ts : List Tok) : RawSafe (sanitizeT ts) := by
  intro t ht
  obtain ⟨h1, h2, h3⟩ := sanitize_clean ts t ht
  intro hraw
  refine ⟨h1, h2, fun hc => ?_⟩
  rw [h3 hc] at hraw
  cases hraw

theorem rawSafe_escLt {ts : List Tok} (h : RawSafe ts) : RawSafe (escLt ts) := by
  intro t ht
  unfold escLt at ht
  rcases List.mem_flatMap.mp ht with ⟨a, ha, hta⟩
  by_cases h1 : a.ch = '<'
  · rw [if_pos h1] at hta
    exact rawSafe_gen "&lt;" t hta
  · rw [if_neg h1] at hta
    rcases List.mem_singleton.mp hta with rfl
    exact h _ ha

theorem rawSafe_fenceGo : ∀ (f : Nat) (ts : List Tok), RawSafe ts → RawSafe (fenceGo f ts) := by
  intro f ts
  induction f, ts using fenceGo.induct with
  | case1 ts => intro h; exact h
  | case2 f ts hsp =>
    intro h
    unfold fenceGo
    rw [hsp]
    exact h
  | case3 f ts pre post hsp hsp2 =>
    intro h
    unfold fenceGo
    rw [hsp]
    dsimp only
    rw [hsp2]
    exact h
  | case4 f ts pre post hsp content rest hsp2 ih =>
    intro h
    unfold fenceGo
    rw [hsp]
    dsimp only
    rw [hsp2]
    obtain ⟨hpre, hpost⟩ := memSplitTicks3 hsp
    obtain ⟨hcon, hrest⟩ := memSplitTicks3 hsp2
    simp only [rawSafe_append_iff]
    refine ⟨⟨⟨⟨rawSafe_of_sub hpre h, rawSafe_gen _⟩, rawSafe_escLt ?_⟩, rawSafe_gen _⟩, ?_⟩
    · exact rawSafe_of_sub (fun t ht => hpost t (hcon t ht)) h
    · exact ih (rawSafe_of_sub (fun t ht => hpost t (hrest t ht)) h)

theorem rawSafe_fenceStage {ts : List Tok} (h : RawSafe ts) : RawSafe (fenceStage ts) :=
  rawSafe_fenceGo _ _ h

theorem rawSafe_codeJoin : ∀ (ps : List (List Tok)), (∀ p ∈ ps, RawSafe p) →
    RawSafe (codeJoin ps) := by
  intro ps
  induction ps using codeJoin.induct with
  | case1 => intro _; exact rawSafe_nil
  | case2 p =>
    intro h
    unfold codeJoin
    exact h p (List.mem_singleton.mpr rfl)
  | case3 p q rest hcond ih =>
    intro h
    unfold codeJoin
    rw [if_pos hcond]
    simp only [rawSafe_append_iff]
    exact ⟨⟨⟨⟨h p (by simp), rawSafe_gen _⟩, h q (by simp)⟩, rawSafe_gen _⟩,
           ih (fun r hr => h r (by simp [hr]))⟩
  | case4 p q rest hcond ih =>
    intro h
    unfold codeJoin
    rw [if_neg hcond]
    simp only [rawSafe_append_iff]
    exact ⟨⟨h p (by simp), rawSafe_cons (rawOk_tick true) rawSafe_nil⟩,
           ih (fun r hr => h r (by simp at hr ⊢; tauto))⟩

theorem rawSafe_pieces {c : Char} {ts : List Tok} (h : RawSafe ts) :
    ∀ p ∈ splitOnCh c ts, RawSafe p :=
  fun p hp => rawSafe_of_sub (fun t ht => memSplitOnCh hp ht) h

theorem rawSafe_codeStage {ts : List Tok} (h : RawSafe ts) : RawSafe (codeStage ts) :=
  rawSafe_codeJoin _ (rawSafe_pieces h)

theorem rawSafe_joinNl : ∀ (ls : List (List Tok)), (∀ l ∈ ls, RawSafe l) →
    RawSafe (joinNl ls) := by
  intro ls
  induction ls using joinNl.induct with
  | case1 => intro _; exact rawSafe_nil
  | case2 l =>
    intro h
    unfold joinNl
    exact h l (by simp)
  | case3 l ls hne ih =>
    intro h
    unfold joinNl
    match ls, hne with
    | l2 :: ls2, _ =>
      refine rawSafe_append (h l (by simp)) (rawSafe_cons rawOk_nl ?_)
      exact ih (fun r hr => h r (by simp at hr ⊢; tauto))

theorem rawSafe_headLine {l : List Tok} (n : Nat) (h : RawSafe l) :
    RawSafe (headLine n l) := by
  unfold headLine
  dsimp only
  split
  · simp only [rawSafe_append_iff]
    refine ⟨⟨rawSafe_gen _, rawSafe_of_sub (fun t ht => ?_) h⟩, rawSafe_gen _⟩
    exact List.drop_subset n l (memDropWhile ht)
  · exact h

theorem rawSafe_headStage {ts : List Tok} (n : Nat) (h : RawSafe ts) :
    RawSafe (headStage n ts) := by
  unfold headStage
  refine rawSafe_joinNl _ ?_
  intro l hl
  rcases List.mem_map.mp hl with ⟨l0, hl0, rfl⟩
  exact rawSafe_headLine n (rawSafe_pieces h l0 hl0)

theorem rawSafe_headingsStage {ts : List Tok} (h : RawSafe ts) :
    RawSafe (headingsStage ts) :=
  rawSafe_headStage 1 (rawSafe_headStage 2 (rawSafe_headStage 3 h))

theorem rawSafe_emphDouble (c : Char) (tagO tagC : String) :
    ∀ (f : Nat) (ts : List Tok), RawSafe ts → RawSafe (emphDouble c tagO tagC f ts) := by
  intro f ts
  induction f, ts using emphDouble.induct c tagO tagC with
  | case1 ts => intro h; exact h
  | case2 n => intro _; exact rawSafe_nil
  | case3 f a hac =>
    intro h
    unfold emphDouble
    rw [if_pos hac]
    exact h
  | case4 f a hac t rest htc content rest3 hd tl x y rest4 hdrop hcon hxy ih =>
    intro h
    have hdrop2 : List.dropWhile (fun u => u.ch != c) rest = x :: y :: rest4 := hdrop
    have hcon2 : List.takeWhile (fun u => u.ch != c) rest = hd :: tl := hcon
    have hrest : RawSafe rest := fun u hu => h u (by simp [hu])
    unfold emphDouble
    rw [if_pos hac]
    dsimp only
    rw [if_pos htc]
    rw [hcon2, hdrop2]
    try dsimp only
    rw [if_pos hxy]
    simp only [rawSafe_append_iff]
    refine ⟨⟨⟨rawSafe_gen _, ?_⟩, rawSafe_gen _⟩, ?_⟩
    · refine rawSafe_of_sub (fun u hu => ?_) hrest
      exact memTakeWhile (hcon2 ▸ hu)
    · refine ih (rawSafe_of_sub (fun u hu => ?_) hrest)
      have hu2 : u ∈ List.dropWhile (fun v => v.ch != c) rest := by
        rw [hdrop2]; simp [hu]
      exact memDropWhile hu2
  | case5 f a hac t rest htc content rest3 hd tl x y rest4 hdrop hcon hxy ih =>
    intro h
    have hdrop2 : List.dropWhile (fun u => u.ch != c) rest = x :: y :: rest4 := hdrop
    have hcon2 : List.takeWhile (fun u => u.ch != c) rest = hd :: tl := hcon
    unfold emphDouble
    rw [if_pos hac]
    dsimp only
    rw [if_pos htc]
    rw [hcon2, hdrop2]
    try dsimp only
    rw [if_neg hxy]
    exact rawSafe_cons (h a (by simp)) (ih (fun u hu => h u (by simp at hu ⊢; tauto)))
  | case6 f a hac t rest htc content rest3 hnomatch ih =>
    intro h
    unfold emphDouble
    rw [if_pos hac]
    dsimp only
    rw [if_pos htc]
    have hrec : RawSafe (emphDouble c tagO tagC f (t :: rest)) :=
      ih (fun u hu => h u (by simp at hu ⊢; tauto))
    split
    · next hd tl x y rest4 hcon hdrop =>
        exact absurd trivial (fun _ => hnomatch hd tl x y rest4 hcon hdrop)
    · exact rawSafe_cons (h a (by simp)) hrec
  | case7 f a hac t rest htc ih =>
    intro h
    unfold emphDouble
    rw [if_pos hac]
    dsimp only
    rw [if_neg htc]
    exact rawSafe_cons (h a (by simp)) (ih (fun u hu => h u (by simp at hu ⊢; tauto)))
  | case8 f a rest hac ih =>
    intro h
    unfold emphDouble
    rw [if_neg hac]
    exact rawSafe_cons (h a (by simp)) (ih (fun u hu => h u (by simp [hu])))

theorem rawSafe_emphSingle (c : Char) (tagO tagC : String) :
    ∀ (f : Nat) (ts : List Tok), RawSafe ts → RawSafe (emphSingle c tagO tagC f ts) := by
  intro f ts
  induction f, ts using emphSingle.induct c tagO tagC with
  | case1 ts => intro h; exact h
  | case2 n => intro _; exact rawSafe_nil
  | case3 f a rest hac content rest3 hd tl x rest4 hdrop hcon hxc ih =>
    intro h
    have hdrop2 : List.dropWhile (fun u => u.ch != c) rest = x :: rest4 := hdrop
    have hcon2 : List.takeWhile (fun u => u.ch != c) rest = hd :: tl := hcon
    have hrest : RawSafe rest := fun u hu => h u (by simp [hu])
    unfold emphSingle
    rw [if_pos hac]
    dsimp only
    rw [hcon2, hdrop2]
    try dsimp only
    rw [if_pos hxc]
    simp only [rawSafe_append_iff]
    refine ⟨⟨⟨rawSafe_gen _, ?_⟩, rawSafe_gen _⟩, ?_⟩
    · refine rawSafe_of_sub (fun u hu => ?_) hrest
      exact memTakeWhile (hcon2 ▸ hu)
    · refine ih (rawSafe_of_sub (fun u hu => ?_) hrest)
      have hu2 : u ∈ List.dropWhile (fun v => v.ch != c) rest := by
        rw [hdrop2]; simp [hu]
      exact memDropWhile hu2
  | case4 f a rest hac content rest3 hd tl x rest4 hdrop hcon hxc ih =>
    intro h
    have hdrop2 : List.dropWhile (fun u => u.ch != c) rest = x :: rest4 := hdrop
    have hcon2 : List.takeWhile (fun u => u.ch != c) rest = hd :: tl := hcon
    unfold emphSingle
    rw [if_pos hac]
    dsimp only
    rw [hcon2, hdrop2]
    try dsimp only
    rw [if_neg hxc]
    exact rawSafe_cons (h a (by simp)) (ih (fun u hu => h u (by simp [hu])))
  | case5 f a rest hac content rest3 hnomatch ih =>
    intro h
    unfold emphSingle
    rw [if_pos hac]
    dsimp only
    have hrec : RawSafe (emphSingle c tagO tagC f rest) :=
      ih (fun u hu => h u (by simp [hu]))
    split
    · next hd tl x rest4 hcon hdrop =>
        exact absurd trivial (fun _ => hnomatch hd tl x rest4 hcon hdrop)
    · exact rawSafe_cons (h a (by simp)) hrec
  | case6 f a rest hac ih =>
    intro h
    unfold emphSingle
    rw [if_neg hac]
    exact rawSafe_cons (h a (by simp)) (ih (fun u hu => h u (by simp [hu])))

theorem rawSafe_emphStage {ts : List Tok} (h : RawSafe ts) : RawSafe (emphStage ts) := by
  unfold emphStage
  exact rawSafe_emphSingle _ _ _ _ _ (rawSafe_emphDouble _ _ _ _ _
    (rawSafe_emphSingle _ _ _ _ _ (rawSafe_emphDouble _ _ _ _ _ h)))

theorem chompSchemeSub : ∀ {r sch rest : List Tok}, chompScheme r = some (sch, rest) →
    (∀ t ∈ sch, t ∈ r) ∧ (∀ t ∈ rest, t ∈ r) := by
  intro r sch rest heq
  unfold chompScheme at heq
  split at heq
  · next h t1 t2 p rest' =>
    split at heq
    · split at heq
      · next s c1 s1 s2 rest2 =>
        split at heq
        · split at heq
          · cases heq
            constructor
            · intro u hu
              fin_cases hu <;> simp
            · intro u hu
              simp [hu]
          · cases heq
        · split at heq
          · cases heq
            constructor
            · intro u hu
              fin_cases hu <;> simp
            · intro u hu
              simp at hu ⊢
              tauto
          · cases heq
      · cases heq
    · cases heq
  · cases heq

theorem tryLinkSub : ∀ {ts rep rem : List Tok}, tryLink ts = some (rep, rem) →
    RawSafe ts → RawSafe rep ∧ RawSafe rem := by
  intro ts rep rem heq h
  unfold tryLink at heq
  split at heq
  · next lb rest =>
    split at heq
    · dsimp only at heq
      split at heq
      · next txthd txttl rb lp r2 =>
        split at heq
        · split at heq
          · next scheme r3 =>
            split at heq
            · next urlhd urltl rp r5 =>
              split at heq
              · cases heq
                next hcon hr1 hlp hchomp hurl hr4 hrp =>
                have hrest : RawSafe rest := fun u hu => h u (by simp [hu])
                have hrb : RawSafe rb := by
                  refine rawSafe_of_sub (fun u hu => ?_) hrest
                  have hu2 : u ∈ List.dropWhile (fun t => t.ch != ']') rest := by
                    rw [r2]; simp [hu]
                  exact memDropWhile hu2
                obtain ⟨hsch, hrem3⟩ := chompSchemeSub r3
                have hscheme : RawSafe scheme := rawSafe_of_sub hrem3 hrb
                have hhr1 : RawSafe hr1 := rawSafe_of_sub hsch hrb
                constructor
                · simp only [rawSafe_append_iff]
                  exact ⟨⟨⟨⟨⟨rawSafe_gen _, hhr1⟩,
                    rawSafe_of_sub (fun u hu => memTakeWhile hu) hscheme⟩, rawSafe_gen _⟩,
                    rawSafe_of_sub (fun u hu => memTakeWhile hu) hrest⟩, rawSafe_gen _⟩
                · refine rawSafe_of_sub (fun u hu => ?_) hscheme
                  have hu2 : u ∈ List.dropWhile urlOk scheme := by rw [r5]; simp [hu]
                  exact memDropWhile hu2
              · cases heq
            · cases heq
          · cases heq
        · cases heq
      · cases heq
    · cases heq
  · cases heq

theorem rawSafe_linkGo : ∀ (f : Nat) (ts : List Tok), RawSafe ts → RawSafe (linkGo f ts) := by
  intro f ts
  induction f, ts using linkGo.induct with
  | case1 ts => intro h; exact h
  | case2 n => intro _; exact rawSafe_nil
  | case3 f a rest rep rem heq ih =>
    intro h
    unfold linkGo
    rw [heq]
    obtain ⟨hrep, hrem⟩ := tryLinkSub heq h
    exact rawSafe_append hrep (ih hrem)
  | case4 f a rest heq ih =>
    intro h
    unfold linkGo
    rw [heq]
    exact rawSafe_cons (h a (by simp)) (ih (fun u hu => h u (by simp [hu])))

theorem rawSafe_linkStage {ts : List Tok} (h : RawSafe ts) : RawSafe (linkStage ts) :=
  rawSafe_linkGo _ _ h

theorem memUlItem {l : List Tok} {t : Tok} (h : t ∈ ulItem l) : t ∈ l := by
  unfold ulItem at h
  split at h
  · next m r heq =>
    have h1 : t ∈ r := memDropWhile (memTrimT h)
    have h2 : t ∈ trimT l := by rw [heq]; simp [h1]
    exact memTrimT h2
  · simp at h

theorem memOlItem {l : List Tok} {t : Tok} (h : t ∈ olItem l) : t ∈ l := by
  unfold olItem at h
  split at h
  · next d r2 heq =>
    have h1 : t ∈ r2 := memDropWhile (memTrimT h)
    have h2 : t ∈ (trimT l).dropWhile (fun u => u.ch.isDigit) := by rw [heq]; simp [h1]
    exact memTrimT (memDropWhile h2)
  · simp at h

theorem rawSafe_mkUl {l : List Tok} (h : RawSafe l) : RawSafe (mkUl l) := by
  unfold mkUl
  simp only [rawSafe_append_iff]
  exact ⟨⟨rawSafe_gen _, rawSafe_of_sub (fun t ht => memUlItem ht) h⟩, rawSafe_gen _⟩

theorem rawSafe_mkOl {l : List Tok} (h : RawSafe l) : RawSafe (mkOl l) := by
  unfold mkOl
  simp only [rawSafe_append_iff]
  exact ⟨⟨rawSafe_gen _, rawSafe_of_sub (fun t ht => memOlItem ht) h⟩, rawSafe_gen _⟩

theorem rawSafe_listJoin (f : List Tok → Bool) (mk : List Tok → List Tok)
    (hmk : ∀ l, RawSafe l → RawSafe (mk l)) :
    ∀ (ls : List (List Tok)), (∀ l ∈ ls, RawSafe l) → RawSafe (listJoin f mk ls) := by
  intro ls
  induction ls using listJoin.induct f mk with
  | case1 => intro _; exact rawSafe_nil
  | case2 l hf =>
    intro h
    unfold listJoin
    rw [if_pos hf]
    exact hmk l (h l (by simp))
  | case3 l hf =>
    intro h
    unfold listJoin
    rw [if_neg hf]
    exact h l (by simp)
  | case4 l ls hne ih =>
    intro h
    unfold listJoin
    match ls, hne with
    | l2 :: ls2, _ =>
      refine rawSafe_append ?_ (ih (fun r hr => h r (by simp at hr ⊢; tauto)))
      split
      · exact hmk l (h l (by simp))
      · exact rawSafe_append (h l (by simp)) (rawSafe_cons rawOk_nl rawSafe_nil)

theorem rawSafe_ulStage {ts : List Tok} (h : RawSafe ts) : RawSafe (ulStage ts) :=
  rawSafe_listJoin _ _ (fun _ hl => rawSafe_mkUl hl) _ (rawSafe_pieces h)

theorem rawSafe_olStage {ts : List Tok} (h : RawSafe ts) : RawSafe (olStage ts) :=
  rawSafe_listJoin _ _ (fun _ hl => rawSafe_mkOl hl) _ (rawSafe_pieces h)

theorem rawSafe_paraGo : ∀ (f : Nat) (ts : List Tok), RawSafe ts → RawSafe (paraGo f ts) := by
  intro f ts
  induction f, ts using paraGo.induct with
  | case1 ts => intro h; exact h
  | case2 n => intro _; exact rawSafe_nil
  | case3 f a ha =>
    intro h
    unfold paraGo
    rw [if_pos ha]
    exact h
  | case4 f a ha t rest ht ih =>
    intro h
    unfold paraGo
    rw [if_pos ha]
    dsimp only
    rw [if_pos ht]
    refine rawSafe_append (rawSafe_gen _) (ih ?_)
    refine rawSafe_of_sub (fun u hu => ?_) h
    have hu2 : u ∈ rest := memDropWhile hu
    simp [hu2]
  | case5 f a ha t rest ht ih =>
    intro h
    unfold paraGo
    rw [if_pos ha]
    dsimp only
    rw [if_neg ht]
    exact rawSafe_cons (h a (by simp)) (ih (fun u hu => h u (by simp at hu ⊢; tauto)))
  | case6 f a rest ha ih =>
    intro h
    unfold paraGo
    rw [if_neg ha]
    exact rawSafe_cons (h a (by simp)) (ih (fun u hu => h u (by simp [hu])))

theorem rawSafe_paraBreak {ts : List Tok} (h : RawSafe ts) : RawSafe (paraBreak ts) :=
  rawSafe_paraGo _ _ h

theorem rawSafe_spanLine {l : List Tok} (h : RawSafe l) : RawSafe (spanLine l) := by
  unfold spanLine
  split
  · exact rawSafe_nil
  · split
    · exact h
    · simp only [rawSafe_append_iff]
      exact ⟨⟨rawSafe_gen _, h⟩, rawSafe_gen _⟩

theorem rawSafe_spanStage {ts : List Tok} (h : RawSafe ts) : RawSafe (spanStage ts) := by
  unfold spanStage
  refine rawSafe_joinNl _ ?_
  intro l hl
  rcases List.mem_map.mp hl with ⟨l0, hl0, rfl⟩
  exact rawSafe_spanLine (rawSafe_pieces h l0 hl0)

/-- Every transform stage after the sanitizer preserves the raw-character
invariant. -/
theorem rawSafe_postSanitize {ts : List Tok} (h : RawSafe ts) : RawSafe (postSanitize ts) := by
  unfold postSanitize
  simp only [rawSafe_append_iff]
  refine ⟨⟨rawSafe_gen _, ?_⟩, rawSafe_gen _⟩
  exact rawSafe_spanStage (rawSafe_paraBreak (rawSafe_olStage (rawSafe_ulStage
    (rawSafe_linkStage (rawSafe_emphStage (rawSafe_headingsStage
      (rawSafe_codeStage (rawSafe_fenceStage h))))))))

/-- The full renderer output satisfies the raw-character invariant for every
input string. -/
theorem rawSafe_renderToks (raw : String) : RawSafe (renderToks raw) :=
  rawSafe_postSanitize (rawSafe_sanitize _)

/-! ## Support lemmas for the extractor -/

theorem denull_some {o : Option Json} {v : Json} (h : denull o = some v) : v ≠ Json.null := by
  intro hv
  subst hv
  unfold denull at h
  split at h
  · cases h
  · next hne =>
    cases h
    exact hne rfl

theorem joinText_str {root : Option Json} {v : Json} (h : joinTextOf root = .ok (some v)) :
    ∃ s, v = Json.str s := by
  unfold joinTextOf at h
  split at h
  · cases h
  · cases h
  · split at h
    · cases h
    · cases h
      exact ⟨_, rfl⟩
  · cases h

theorem chainRes_some_ne_null {resp : Json} {v : Json} (h : chainRes resp = .ok (some v)) :
    v ≠ Json.null := by
  unfold chainRes at h
  split at h
  · next v1 hfirst =>
    cases h
    unfold firstTextOf at hfirst
    exact denull_some hfirst
  · split at h
    · next v1 hfirst =>
      cases h
      unfold firstTextOf at hfirst
      exact denull_some hfirst
    · split at h
      · cases h
      · next v1 hjoin =>
        cases h
        obtain ⟨s, rfl⟩ := joinText_str hjoin
        intro hc
        cases hc
      · obtain ⟨s, rfl⟩ := joinText_str h
        intro hc
        cases hc

/-! ## Claim theorems -/

/-- Claim C1, counterexample: on the shape
`\x7bresponse:\x7bcandidates:[\x7bcontent:\x7bparts:[\x7btext:"a"\x7d,\x7btext:"b"\x7d]\x7d\x7d]\x7d\x7d`
the extractor returns `"a"` — the first single-part branch
`resp?.response?.candidates?.[0]?.content?.parts?.[0]?.text` already yields
`"a"` and short-circuits the `??` chain, so the multi-part join `"a\nb"` the
claim expects is never reached. -/
theorem extractShape2_counterexample :
    extractText respShape2 = Json.str "a" ∧ ("a" : String) ≠ "a\nb" :=
  ⟨rfl, by decide⟩

/-- Claim C1, amended: the extraction fallback on the three §8 shapes, with
the second corrected: `respShape1` yields `"hi"`, `respShape2` yields `"a"`
(the wrapped first-part branch wins, not the multi-part join), and the
unrecognized shape `\x7b\x7d` yields its JSON rendering `"\x7b\x7d"`. -/
theorem extract_fallback_examples_amended :
    extractText respShape1 = Json.str "hi" ∧
    extractText respShape2 = Json.str "a" ∧
    extractText (Json.obj []) = Json.str "\x7b\x7d" :=
  ⟨rfl, rfl, rfl⟩

/-- Claim C5, counterexample: on a response whose `parts[0].text` is the
number `42`, `extractText` returns that number unchanged — the `??` chain
only tests for nullish values, so a non-string `text` field is passed
through and the function does not return a string. -/
theorem extract_nonstring_counterexample :
    (extractText respNum42).isStr = false ∧ extractText respNum42 = Json.num 42 :=
  ⟨rfl, rfl⟩

/-- Claim C5, amended: `extractText` is total on JSON values (the
`try/catch` converts every internally thrown `TypeError` into the JSON
rendering), never returns a nullish value, and falls back to
`JSON.stringify(resp, null, 2)` both when every branch is nullish and when
a branch throws; but its result is the raw value of the first non-nullish
`parts[0].text` branch, which need not be a string. -/
theorem extract_total_amended :
    ∀ resp : Json,
      extractText resp ≠ Json.null ∧
      (chainRes resp = Except.ok none → extractText resp = Json.str (stringify resp)) ∧
      (chainRes resp = Except.error () → extractText resp = Json.str (stringify resp)) := by
  intro resp
  refine ⟨?_, ?_, ?_⟩
  · unfold extractText
    split
    · next v hv => exact chainRes_some_ne_null hv
    · intro hc; cases hc
    · intro hc; cases hc
  · intro h
    unfold extractText
    rw [h]
  · intro h
    unfold extractText
    rw [h]

/-- Claim C5 witness: at the concrete unrecognized shape `\x7b\x7d` the chain is
exhausted and the amended theorem yields the JSON-rendering fallback. -/
theorem extract_total_witness :
    chainRes (Json.obj []) = Except.ok none ∧
    extractText (Json.obj []) = Json.str (stringify (Json.obj [])) :=
  ⟨rfl, (extract_total_amended (Json.obj [])).2.1 rfl⟩

/-- Claim C10: a provider response whose `parts` is the empty array reaches
the multi-part join branch, which joins zero kept parts into `""`; the empty
string is not nullish, so the `??` chain stops there and the JSON-rendering
fallback (which would be a non-empty string for these shapes) is not used.
Holds both without and with the `response` wrapper. -/
theorem extract_empty_parts_empty_string :
    extractText respEmptyParts = Json.str "" ∧
    extractText respEmptyPartsW = Json.str "" ∧
    stringify respEmptyParts ≠ "" ∧
    stringify respEmptyPartsW ≠ "" :=
  ⟨rfl, rfl, by decide, by decide⟩

/-- When every line matches, the list pass turns each line into its own
block and drops every newline. -/
theorem listJoin_all (f : List Tok → Bool) (mk : List Tok → List Tok) :
    ∀ ls : List (List Tok), (∀ l ∈ ls, f l = true) →
      listJoin f mk ls = ls.flatMap mk := by
  intro ls
  induction ls using listJoin.induct f mk with
  | case1 => intro _; rfl
  | case2 l hf =>
    intro _
    unfold listJoin
    rw [if_pos hf]
    simp
  | case3 l hf =>
    intro h
    exact absurd (h l (by simp)) hf
  | case4 l ls hne ih =>
    intro h
    unfold listJoin
    match ls, hne with
    | l2 :: ls2, _ =>
      dsimp only
      rw [if_pos (h l (by simp))]
      rw [ih (fun r hr => h r (by simp at hr ⊢; tauto))]
      simp

/-- Claim C8: the link transform accepts an `https` URL, emitting an anchor
with the exact `href`, `target="_blank"` and `rel="noopener noreferrer"`
attributes, and leaves a `javascript:`-scheme pseudo-link as literal text
(no anchor is produced anywhere in the output). -/
theorem link_transform_allow_list :
    renderMarkdown "[a](https://x.com)"
      = "<p><a href=\"https://x.com\" target=\"_blank\" rel=\"noopener noreferrer\">a</a></p>" ∧
    strHas "href=\"https://x.com\"" (renderMarkdown "[a](https://x.com)") = true ∧
    strHas "target=\"_blank\"" (renderMarkdown "[a](https://x.com)") = true ∧
    strHas "rel=\"noopener noreferrer\"" (renderMarkdown "[a](https://x.com)") = true ∧
    renderMarkdown "[a](javascript:alert(1))" = "<p><span>[a](javascript:alert(1))</span></p>" ∧
    strHas "<a" (renderMarkdown "[a](javascript:alert(1))") = false :=
  ⟨rfl, rfl, rfl, rfl, rfl, rfl⟩

/-- Claim C9, counterexample: two consecutive unordered-list lines do not
become one `<ul>` with two `<li>`; the lazy `+?` in
`/^(?:[-*+]\s.+(?:\n|$))+?/gm` matches a single line per replacement, so
`"- a\n- b"` yields two adjacent single-item `<ul>` blocks. -/
theorem ul_lines_not_grouped_counterexample :
    renderMarkdown "- a\n- b" = "<p><ul><li>a</li></ul><ul><li>b</li></ul></p>" ∧
    strCount "<ul>" (renderMarkdown "- a\n- b") = 2 ∧
    ¬ strCount "<ul>" (renderMarkdown "- a\n- b") = 1 :=
  ⟨rfl, rfl, by decide⟩

/-- Claim C9, amended: each line matching a list-marker iteration becomes
its *own* single-item list element; a run of such lines yields that many
adjacent one-item `<ul>`/`<ol>` blocks in source order (their newlines are
consumed), not one merged list. -/
theorem list_lines_single_item_blocks :
    ∀ ts : List Tok,
      ((∀ l ∈ splitLinesT ts, ulMatch l = true) →
        ulStage ts = (splitLinesT ts).flatMap mkUl) ∧
      ((∀ l ∈ splitLinesT ts, olMatch l = true) →
        olStage ts = (splitLinesT ts).flatMap mkOl) := by
  intro ts
  constructor
  · intro h
    unfold ulStage
    exact listJoin_all _ _ _ h
  · intro h
    unfold olStage
    exact listJoin_all _ _ _ h

/-- Claim C9 witness: on the concrete two-line input `"- a\n- b"` every line
matches, and the unordered-list stage emits one single-item block per
line. -/
theorem list_lines_witness :
    (∀ l ∈ splitLinesT (inputToks "- a\n- b"), ulMatch l = true) ∧
    ulStage (inputToks "- a\n- b") = (splitLinesT (inputToks "- a\n- b")).flatMap mkUl :=
  ⟨by decide, (list_lines_single_item_blocks (inputToks "- a\n- b")).1 (by decide)⟩

/-- Claim C2: the renderer escapes first — by construction the transform
chain runs on `sanitizeT` output, which contains no `<` or `>` at all and
in which every `&` was emitted by the escaper itself — and the final output
never contains a `<`, `>` or `&` that originated from the raw input: every
such character in the output carries `fromInput = false`, i.e. belongs to
the tags and entities the renderer introduced. -/
theorem renderer_escape_first_and_injection_safety :
    ∀ raw : String,
      renderToks raw = postSanitize (sanitizeT (inputToks raw)) ∧
      (∀ t ∈ sanitizeT (inputToks raw),
        t.ch ≠ '<' ∧ t.ch ≠ '>' ∧ (t.ch = '&' → t.fromInput = false)) ∧
      (∀ t ∈ renderToks raw, t.fromInput = true →
        t.ch ≠ '<' ∧ t.ch ≠ '>' ∧ t.ch ≠ '&') :=
  fun raw => ⟨rfl, sanitize_clean _, rawSafe_renderToks raw⟩

/-- Claim C2 witness: the input-originated letter `a` survives the pipeline
on the concrete input `"a<b&c"` and is indeed none of the three
HTML-significant characters. -/
theorem renderer_injection_witness :
    (⟨'a', true⟩ : Tok) ∈ renderToks "a<b&c" ∧
    ((⟨'a', true⟩ : Tok).ch ≠ '<' ∧ (⟨'a', true⟩ : Tok).ch ≠ '>' ∧
      (⟨'a', true⟩ : Tok).ch ≠ '&') :=
  ⟨by decide, (renderer_escape_first_and_injection_safety "a<b&c").2.2 ⟨'a', true⟩ (by decide) rfl⟩

/-- Claim C3, counterexample: a single successful `sendMessage` call grows
the history by two messages, not at most one — the user message is pushed
unconditionally at entry (`history.push(\x7brole:"user",...\x7d)`) and the model
reply is pushed on success. -/
theorem send_growth_counterexample :
    ((sendMessage [] "hi" okFetch).hist).length = 2 ∧
    ¬ ((sendMessage [] "hi" okFetch).hist).length ≤ ([] : List Message).length + 1 :=
  ⟨rfl, by decide⟩

/-- Claim C3, amended: per `sendMessage` call the history becomes the old
history, plus the user message unconditionally, plus `modelPart o` — which
is one `model` message exactly on the success path with `ok` status, JSON
body and a string `result` with non-empty trim, and empty on every failure
path.  So a send grows the Conversation by exactly 2 on such a success and
by exactly 1 (the user message) otherwise. -/
theorem send_appends_amended :
    ∀ (h : List Message) (t : String) (o : FetchOutcome),
      (sendMessage h t o).hist = h ++ [⟨"user", t⟩] ++ modelPart o ∧
      ((sendMessage h t o).hist).length = h.length + 1 + (modelPart o).length ∧
      (modelPart o).length ≤ 1 := by
  intro h t o
  have hmain : (sendMessage h t o).hist = h ++ [⟨"user", t⟩] ++ modelPart o := by
    cases o with
    | netErr => simp [sendMessage, modelPart]
    | reply ok st body =>
      cases body with
      | none => cases ok <;> simp [sendMessage, modelPart]
      | some data =>
        cases ok with
        | false => simp [sendMessage, modelPart]
        | true =>
          unfold sendMessage modelPart
          cases hai : aiTextOf data <;> simp [hai]
  have hlen : (modelPart o).length ≤ 1 := by
    cases o with
    | netErr => simp [modelPart]
    | reply ok st body =>
      cases body with
      | none => cases ok <;> simp [modelPart]
      | some data =>
        cases ok with
        | false => simp [modelPart]
        | true =>
          unfold modelPart
          cases hai : aiTextOf data <;> simp [hai]
  refine ⟨hmain, ?_, hlen⟩
  rw [hmain]
  simp
  omega

/-- Claim C4, counterexample: on a 503 reply carrying the missing-credential
error body, the user sees only the generic sentinel — the thrown
`Error(data?.error || ...)` is swallowed by the surrounding `catch`, which
overwrites the bubble with "Failed to get response from server." — and the
history has been mutated (the user message was pushed at entry). -/
theorem send_error_counterexample :
    (sendMessage [] "hi" (.reply false 503 (some errBody503))).display
      = "Failed to get response from server." ∧
    (sendMessage [] "hi" (.reply false 503 (some errBody503))).display
      ≠ "Missing GEMINI_API_KEY (or API_KEY) in environment." ∧
    (sendMessage [] "hi" (.reply false 503 (some errBody503))).hist ≠ [] :=
  ⟨rfl, by decide, by decide⟩

/-- Claim C4, amended: on a non-success status the handler *constructs* the
message the claim describes — the truthy relay `error` field verbatim,
else `"HTTP <status>"` — but only inside a thrown `Error` that the
surrounding `catch` logs; the text shown to the user is always the sentinel
"Failed to get response from server.", no model message is appended, and
the history still gains the unconditional user append. -/
theorem send_error_amended :
    ∀ (h : List Message) (t : String) (st : Nat) (d : Json),
      sendMessage h t (.reply false st (some d)) =
        ⟨h ++ [⟨"user", t⟩], "Failed to get response from server.", some (errText d st)⟩ ∧
      (∀ s, d.getF "error" = some (.str s) → s ≠ "" → errText d st = s) ∧
      (d.getF "error" = none → errText d st = "HTTP " ++ toString st) := by
  intro h t st d
  refine ⟨rfl, ?_, ?_⟩
  · intro s hs hne
    unfold errText dig
    dsimp only
    rw [hs]
    simp [truthy, jsToString, hne]
  · intro h0
    unfold errText dig
    dsimp only
    rw [h0]

/-- Claim C4 witness: at the concrete 503 configuration-error reply, the
internally thrown message is the relay error string verbatim while the
displayed text is the sentinel. -/
theorem send_error_witness :
    errText errBody503 503 = "Missing GEMINI_API_KEY (or API_KEY) in environment." ∧
    sendMessage [] "hi" (.reply false 503 (some errBody503)) =
      ⟨[⟨"user", "hi"⟩], "Failed to get response from server.",
        some (errText errBody503 503)⟩ :=
  ⟨(send_error_amended [] "hi" 503 errBody503).2.1 _ rfl (by decide),
   (send_error_amended [] "hi" 503 errBody503).1⟩

/-- Claim C6: POST /api/chat replies `500 \x7berror: "messages must be an
array"\x7d` whenever the `messages` field of the (defaulted) request body is not an
array, for any credential state and provider outcome — and since
`chatHandler` is a total function, every such request is answered rather
than crashing the process; when `messages` *is* an array and no credential
is configured (unset or empty), it replies
`503 \x7berror: "Missing GEMINI_API_KEY (or API_KEY) in environment."\x7d`. -/
theorem chat_bad_messages_and_missing_key :
    ∀ (k : Option String) (b : Json) (p : Except String Json),
      (isArrOpt ((effBody b).getF "messages") = false →
        chatHandler k b p = (500, .obj [("error", .str "messages must be an array")])) ∧
      (∀ ms, (effBody b).getF "messages" = some (.arr ms) → keyFalsy k = true →
        chatHandler k b p = (503, .obj [("error",
          .str "Missing GEMINI_API_KEY (or API_KEY) in environment.")])) := by
  intro k b p
  constructor
  · intro hna
    unfold chatHandler
    split
    · next ms heq =>
      rw [heq] at hna
      simp [isArrOpt] at hna
    · rfl
  · intro ms hms hk
    unfold chatHandler
    rw [hms]
    dsimp only
    rw [if_pos hk]

/-- Claim C6 witness: the concrete §8 examples — a string `messages` yields
the 500 validation error, an array `messages` with no credential yields the
503 configuration error. -/
theorem chat_errors_witness :
    isArrOpt ((effBody (Json.obj [("messages", Json.str "not-an-array")])).getF "messages")
      = false ∧
    chatHandler none (Json.obj [("messages", Json.str "not-an-array")]) (.ok .null)
      = (500, .obj [("error", .str "messages must be an array")]) ∧
    (effBody (Json.obj [("messages", Json.arr [])])).getF "messages"
      = some (.arr []) ∧
    chatHandler none (Json.obj [("messages", Json.arr [])]) (.ok .null)
      = (503, .obj [("error", .str "Missing GEMINI_API_KEY (or API_KEY) in environment.")]) :=
  ⟨rfl, (chat_bad_messages_and_missing_key none _ _).1 rfl,
   rfl, (chat_bad_messages_and_missing_key none _ _).2 [] rfl rfl⟩

/-- Claim C7: an empty or whitespace-only submission is silently ignored —
the trimmed input is empty, so the handler returns before touching the
history and before any fetch: the Conversation is unchanged and no network
call is made. -/
theorem empty_submission_ignored :
    ∀ (h : List Message) (v : String) (o : FetchOutcome),
      trimS v = "" → submitHandler h v o = (h, false, none) := by
  intro h v o hv
  unfold submitHandler
  simp [hv]

/-- Claim C7 witness: the concrete whitespace-only submission `"  \t "` is
ignored. -/
theorem empty_submission_witness :
    trimS "  \t " = "" ∧
    submitHandler [] "  \t " FetchOutcome.netErr = ([], false, none) :=
  ⟨rfl, empty_submission_ignored [] "  \t " FetchOutcome.netErr rfl⟩
